import Mathlib

/-!
Shallow embedding of the booking backend (the full variant of the server:
availability resolution, booking creation, availability overrides, and the
token-gated admin surface).  Stateful JavaScript handlers become explicit
state-passing functions; the in-memory objects become association lists.
-/

set_option maxHeartbeats 1000000

/-- A stored booking record: `{ time, name, email, address, notes }`
as pushed by the `/api/book` handler.  `notes` is optional. -/
structure BookingRecord where
  time : String
  name : String
  email : String
  address : String
  notes : Option String
deriving DecidableEq, Repr

/-- The shared in-memory stores of the server process:
`bookings` (date → list of booking records), `availabilityOverrides`
(date → slot → bool), and the `validTokens` set. -/
structure ServerState where
  bookings : List (String × List BookingRecord)
  availabilityOverrides : List (String × List (String × Bool))
  validTokens : List String
deriving DecidableEq, Repr

/-- The empty stores the process starts with. -/
def initialState : ServerState := ⟨[], [], []⟩

/-- Property lookup on a JavaScript-object-as-association-list:
first binding wins, `none` when the key is absent. -/
def assocLookup {α : Type} (k : String) : List (String × α) → Option α
  | [] => none
  | (k', v) :: rest => if k = k' then some v else assocLookup k rest

/-- Source expression `bookings[date] || []`. -/
def bookingsFor (st : ServerState) (d : String) : List BookingRecord :=
  (assocLookup d st.bookings).getD []

/-- Source expression `availabilityOverrides[date] || {}`. -/
def overridesFor (st : ServerState) (d : String) : List (String × Bool) :=
  (assocLookup d st.availabilityOverrides).getD []

/-! ### Date parsing and UTC day-of-week

The handler validates the date with `^\d{4}-\d{2}-\d{2}$` and then builds
`new Date(date + 'T00:00:00.000Z')`; `getUTCDay()` yields 0 (Sunday) … 6
(Saturday), and `NaN` (modelled as `none`) for a regex-shaped string that
is not a real calendar date. -/

/-- Numeric value of a decimal digit character. -/
def digitVal (c : Char) : Nat := c.toNat - '0'.toNat

/-- Parse a string matching `^\d{4}-\d{2}-\d{2}$` into (year, month, day);
`none` exactly when the regex fails. -/
def parseYMD (s : String) : Option (Nat × Nat × Nat) :=
  match s.data with
  | [y1, y2, y3, y4, h1, m1, m2, h2, d1, d2] =>
    if y1.isDigit && y2.isDigit && y3.isDigit && y4.isDigit && h1 == '-' &&
       m1.isDigit && m2.isDigit && h2 == '-' && d1.isDigit && d2.isDigit then
      some (digitVal y1 * 1000 + digitVal y2 * 100 + digitVal y3 * 10 + digitVal y4,
            digitVal m1 * 10 + digitVal m2,
            digitVal d1 * 10 + digitVal d2)
    else none
  | _ => none

/-- The date-format regex `^\d{4}-\d{2}-\d{2}$` as a Boolean test. -/
def matchesDateRegex (s : String) : Bool := (parseYMD s).isSome

/-- Gregorian leap year. -/
def isLeapYear (y : Nat) : Bool := (y % 4 == 0 && y % 100 != 0) || y % 400 == 0

/-- Number of days in a month. -/
def daysInMonth (y m : Nat) : Nat :=
  if m = 2 then (if isLeapYear y then 29 else 28)
  else if m = 4 ∨ m = 6 ∨ m = 9 ∨ m = 11 then 30 else 31

/-- Whether (y, m, d) is a real calendar date; the ISO `Date` constructor
yields an Invalid Date otherwise. -/
def isRealDate (y m d : Nat) : Bool :=
  1 ≤ m && m ≤ 12 && 1 ≤ d && d ≤ daysInMonth y m

/-- Computes `getUTCDay()` for a real date, via Zeller's congruence
(0 = Sunday, …, 6 = Saturday). -/
def jsUTCDay (y m d : Nat) : Nat :=
  let Y : Int := if m ≤ 2 then (y : Int) - 1 else (y : Int)
  let M : Int := if m ≤ 2 then (m : Int) + 12 else (m : Int)
  let K : Int := Y.emod 100
  let J : Int := Y.ediv 100
  let h : Int :=
    ((d : Int) + (13 * (M + 1)).ediv 5 + K + K.ediv 4 + J.ediv 4 + 5 * J).emod 7
  ((h + 6).emod 7).toNat

/-- Models `new Date(s + 'T00:00:00.000Z').getUTCDay()`:
`none` models `NaN` (Invalid Date). -/
def utcDayOpt (s : String) : Option Nat :=
  match parseYMD s with
  | some (y, m, d) => if isRealDate y m d then some (jsUTCDay y m d) else none
  | none => none

/-- The fixed weekday slot list of `getStandardAvailability`. -/
def weekdaySlots : List String :=
  ["08:00 AM - 09:00 AM", "09:00 AM - 10:00 AM", "10:00 AM - 11:00 AM"]

/-- Function `getStandardAvailability(dateObj)`: empty on Saturday/Sunday
(`dayOfWeek === 0 || dayOfWeek === 6`), the fixed list otherwise
(`NaN` compares unequal to both, hence also the fixed list). -/
def getStandardAvailability (dayOfWeek : Option Nat) : List String :=
  match dayOfWeek with
  | some 0 => []
  | some 6 => []
  | _ => weekdaySlots

/-! ### Public routes -/

/-- Outcome of `GET /api/availability`: 400, or 200 with the payload. -/
inductive AvailabilityResponse where
  | badRequest
  | ok (date : String) (availableTimes : List String)
deriving DecidableEq, Repr

/-- Handler for `GET /api/availability?date=...` (the state is only read). -/
def getAvailability (st : ServerState) (dateParam : Option String) : AvailabilityResponse :=
  match dateParam with
  | none => .badRequest
  | some d =>
    if matchesDateRegex d then
      let allTimes := getStandardAvailability (utcDayOpt d)
      let bookedTimesForDate := (bookingsFor st d).map BookingRecord.time
      let dayOverrides := overridesFor st d
      .ok d (allTimes.filter fun time =>
        let isManuallyDisabled := assocLookup time dayOverrides == some false
        let isBooked := bookedTimesForDate.contains time
        !isManuallyDisabled && !isBooked)
    else .badRequest

/-- The JSON body of `POST /api/book`; absent fields are `none`. -/
structure BookRequest where
  date : Option String
  time : Option String
  name : Option String
  email : Option String
  address : Option String
  notes : Option String
deriving DecidableEq, Repr

/-- JavaScript truthiness of an optional string field
(`undefined` and `''` are falsy). -/
def present : Option String → Bool
  | none => false
  | some s => s != ""

/-- The guard `date && time && name && email && address` of the validation. -/
def requiredPresent (r : BookRequest) : Bool :=
  present r.date && present r.time && present r.name && present r.email && present r.address

/-- Outcome of `POST /api/book`: 400, 409 or 201. -/
inductive BookResponse where
  | badRequest
  | conflict
  | created
deriving DecidableEq, Repr

/-- The record object `{ time, name, email, address, notes }` built
from the request body. -/
def mkRecord (r : BookRequest) : BookingRecord :=
  { time := r.time.getD "", name := r.name.getD "", email := r.email.getD "",
    address := r.address.getD "", notes := r.notes }

/-- Source statements `if (!bookings[date]) bookings[date] = []; bookings[date].push(b)`. -/
def pushBooking : List (String × List BookingRecord) → String → BookingRecord →
    List (String × List BookingRecord)
  | [], d, b => [(d, [b])]
  | (k, v) :: rest, d, b =>
    if d = k then (k, v ++ [b]) :: rest else (k, v) :: pushBooking rest d b

/-- Handler for `POST /api/book`. -/
def createBooking (st : ServerState) (r : BookRequest) : BookResponse × ServerState :=
  if requiredPresent r then
    let d := r.date.getD ""
    let t := r.time.getD ""
    if (bookingsFor st d).any (fun b => b.time == t) ||
       (assocLookup t (overridesFor st d) == some false) then
      (.conflict, st)
    else
      (.created, { st with bookings := pushBooking st.bookings d (mkRecord r) })
  else (.badRequest, st)

/-- A well-formed booking request (a weekday date, a standard slot, all
required fields non-empty) used as a concrete input in closed checks. -/
def sampleRequest : BookRequest :=
  ⟨some "2025-10-13", some "09:00 AM - 10:00 AM", some "A", some "a@x.com",
    some "1 Main St", none⟩

/-- A booking request for a Saturday date with a time string that is not a
standard slot label, all required fields non-empty. -/
def saturdayRequest : BookRequest :=
  ⟨some "2025-10-11", some "25:99", some "B", some "b@x.com", some "2 Side St", none⟩

example : jsUTCDay 2025 10 11 = 6 := by decide
example : jsUTCDay 1970 1 1 = 4 := by decide
example : jsUTCDay 2000 1 1 = 6 := by decide
example : jsUTCDay 2024 2 29 = 4 := by decide
example : jsUTCDay 2025 10 13 = 1 := by decide
example : jsUTCDay 2026 10 11 = 0 := by decide
example : matchesDateRegex "2025-10-11" = true := by decide
example : matchesDateRegex "2025-1-1" = false := by decide
example : parseYMD "2025-10-11" = some (2025, 10, 11) := by decide
example : utcDayOpt "2025-02-30" = none := by decide

/-! ### Authentication and admin routes -/

/-- Models `String.prototype.split(sep)` for a one-character separator, on the
character list of the string. -/
def jsSplit (sep : Char) : List Char → List (List Char)
  | [] => [[]]
  | c :: rest =>
    match jsSplit sep rest with
    | [] => [[]]
    | w :: ws => if c == sep then [] :: w :: ws else (c :: w) :: ws

/-- Predicate for `s.startsWith(pat)`, by recursion on the pattern. -/
def listStartsWith : List Char → List Char → Bool
  | [], _ => true
  | _ :: _, [] => false
  | p :: ps, c :: cs => p == c && listStartsWith ps cs

/-- Check `authHeader.startsWith('Bearer ')`. -/
def startsWithBearer (h : String) : Bool :=
  listStartsWith "Bearer ".data h.data

/-- Outcome of the authentication middleware: 401, 403, or pass-through. -/
inductive AuthCheck where
  | unauthorized
  | forbidden
  | allowed
deriving DecidableEq, Repr

/-- Middleware `authMiddleware`: 401 when the header is missing (or falsy) or does not
start with `Bearer `; 403 when `split(' ')[1]` is not in `validTokens`;
otherwise the request proceeds. -/
def authMiddleware (validTokens : List String) (authHeader : Option String) : AuthCheck :=
  match authHeader with
  | none => .unauthorized
  | some h =>
    if h = "" then .unauthorized
    else if !startsWithBearer h then .unauthorized
    else
      match (jsSplit ' ' h.data)[1]? with
      | none => .forbidden
      | some tok => if validTokens.contains (String.mk tok) then .allowed else .forbidden

/-- Outcome of `POST /api/admin/login`: 200 with a token, or 401. -/
inductive LoginResponse where
  | success (token : String)
  | unauthorized
deriving DecidableEq, Repr

/-- Handler for `POST /api/admin/login`; `freshToken` stands for the
`crypto.randomBytes(16).toString('hex')` value drawn on success. -/
def login (adminPasscode : String) (st : ServerState) (passcode : Option String)
    (freshToken : String) : LoginResponse × ServerState :=
  if passcode == some adminPasscode then
    (.success freshToken, { st with validTokens := freshToken :: st.validTokens })
  else (.unauthorized, st)

/-- Outcome of a protected admin route: 401, 403, 400, or 200 with a value. -/
inductive AdminResult (α : Type) where
  | unauthorized
  | forbidden
  | badRequest
  | ok (value : α)
deriving DecidableEq, Repr

/-- Run a route handler behind `authMiddleware`: 401/403 short-circuit,
otherwise the handler runs on the state. -/
def checkAuth {α : Type} (st : ServerState) (authHeader : Option String)
    (route : ServerState → AdminResult α × ServerState) : AdminResult α × ServerState :=
  match authMiddleware st.validTokens authHeader with
  | .unauthorized => (.unauthorized, st)
  | .forbidden => (.forbidden, st)
  | .allowed => route st

/-- The body of `GET /api/admin/bookings`: `res.json(bookings)`. -/
def bookingsRoute (st : ServerState) :
    AdminResult (List (String × List BookingRecord)) × ServerState :=
  (.ok st.bookings, st)

/-- The body of `GET /api/admin/availability`:
`res.json(availabilityOverrides)`. -/
def overridesRoute (st : ServerState) :
    AdminResult (List (String × List (String × Bool))) × ServerState :=
  (.ok st.availabilityOverrides, st)

/-- Route `GET /api/admin/bookings` behind `authMiddleware`. -/
def adminGetBookings (st : ServerState) (authHeader : Option String) :
    AdminResult (List (String × List BookingRecord)) × ServerState :=
  checkAuth st authHeader bookingsRoute

/-- Route `GET /api/admin/availability` behind `authMiddleware`. -/
def adminGetAvailability (st : ServerState) (authHeader : Option String) :
    AdminResult (List (String × List (String × Bool))) × ServerState :=
  checkAuth st authHeader overridesRoute

/-- Set one key of a JavaScript object: an existing binding is overwritten
in place, a new key is appended at the end. -/
def setKey : List (String × Bool) → String → Bool → List (String × Bool)
  | [], k, v => [(k, v)]
  | (k', v') :: rest, k, v =>
    if k' = k then (k, v) :: rest else (k', v') :: setKey rest k v

/-- Models `Object.assign(tgt, patch)`: the patch keys are written into the target
in order, later entries overwriting earlier ones. -/
def objectAssign (tgt patch : List (String × Bool)) : List (String × Bool) :=
  patch.foldl (fun acc kv => setKey acc kv.1 kv.2) tgt

/-- Source statements `if (!availabilityOverrides[date]) availabilityOverrides[date] = {};
Object.assign(availabilityOverrides[date], slots)`. -/
def applyOverridePatch : List (String × List (String × Bool)) → String →
    List (String × Bool) → List (String × List (String × Bool))
  | [], d, patch => [(d, objectAssign [] patch)]
  | (k, v) :: rest, d, patch =>
    if d = k then (k, objectAssign v patch) :: rest
    else (k, v) :: applyOverridePatch rest d patch

/-- The body of `POST /api/admin/availability`: 400 when `date` or `slots`
is falsy, otherwise merges the patch into the date's overrides. -/
def setOverridesRoute (dateParam : Option String)
    (slotsParam : Option (List (String × Bool))) (st : ServerState) :
    AdminResult Unit × ServerState :=
  match dateParam, slotsParam with
  | some d, some patch =>
    if d = "" then (.badRequest, st)
    else (.ok (),
      { st with availabilityOverrides := applyOverridePatch st.availabilityOverrides d patch })
  | _, _ => (.badRequest, st)

/-- Route `POST /api/admin/availability` behind `authMiddleware`. -/
def adminPostAvailability (st : ServerState) (authHeader : Option String)
    (dateParam : Option String) (slotsParam : Option (List (String × Bool))) :
    AdminResult Unit × ServerState :=
  checkAuth st authHeader (setOverridesRoute dateParam slotsParam)

/-! ### Reachable states -/

/-- States reachable from process start through the server's operations
(the read-only handlers return the state unchanged but are listed so that
every route is a step). -/
inductive Reachable : ServerState → Prop where
  | init : Reachable initialState
  | book (st : ServerState) (r : BookRequest) :
      Reachable st → Reachable (createBooking st r).2
  | patchOverrides (st : ServerState) (h : Option String) (d : Option String)
      (slots : Option (List (String × Bool))) :
      Reachable st → Reachable (adminPostAvailability st h d slots).2
  | issueToken (pc : String) (st : ServerState) (body : Option String) (f : String) :
      Reachable st → Reachable (login pc st body f).2
  | listBookings (st : ServerState) (h : Option String) :
      Reachable st → Reachable (adminGetBookings st h).2
  | listOverrides (st : ServerState) (h : Option String) :
      Reachable st → Reachable (adminGetAvailability st h).2

/-! ### Helper lemmas -/

theorem assocLookup_pushBooking_self (m : List (String × List BookingRecord))
    (d : String) (b : BookingRecord) :
    assocLookup d (pushBooking m d b) = some ((assocLookup d m).getD [] ++ [b]) := by
  induction m with
  | nil => simp [pushBooking, assocLookup]
  | cons kv rest ih =>
    obtain ⟨k, v⟩ := kv
    by_cases h : d = k
    · subst h
      simp [pushBooking, assocLookup]
    · simp [pushBooking, assocLookup, h, ih]

theorem assocLookup_pushBooking_other (m : List (String × List BookingRecord))
    (d d' : String) (b : BookingRecord) (h : d' ≠ d) :
    assocLookup d' (pushBooking m d b) = assocLookup d' m := by
  induction m with
  | nil => simp [pushBooking, assocLookup, h]
  | cons kv rest ih =>
    obtain ⟨k, v⟩ := kv
    by_cases hk : d = k
    · subst hk
      simp [pushBooking, assocLookup, h, ih]
    · by_cases hk' : d' = k
      · subst hk'
        simp [pushBooking, assocLookup, hk]
      · simp [pushBooking, assocLookup, hk, hk', ih]

theorem jsSplit_of_not_mem (sep : Char) (l : List Char) (h : sep ∉ l) :
    jsSplit sep l = [l] := by
  induction l with
  | nil => rfl
  | cons c cs ih =>
    rw [List.mem_cons, not_or] at h
    rw [jsSplit, ih h.2]
    have hc : (c == sep) = false := by
      simp only [beq_eq_false_iff_ne]
      exact fun hcc => h.1 (hcc ▸ rfl)
    simp [hc]

theorem listStartsWith_self_append (p rest : List Char) :
    listStartsWith p (p ++ rest) = true := by
  induction p with
  | nil => rfl
  | cons c cs ih => simp [listStartsWith, ih]

theorem startsWithBearer_append (tok : String) :
    startsWithBearer ("Bearer " ++ tok) = true := by
  rw [startsWithBearer, String.data_append]
  exact listStartsWith_self_append _ _

theorem jsSplit_ne_nil (sep : Char) (l : List Char) : jsSplit sep l ≠ [] := by
  cases l with
  | nil => simp [jsSplit]
  | cons c cs =>
    rw [jsSplit]
    rcases hc : jsSplit sep cs with _ | ⟨w, ws⟩
    · simp
    · by_cases hsep : (c == sep) = true <;> simp [hsep]

theorem jsSplit_cons_sep (sep : Char) (l : List Char) :
    jsSplit sep (sep :: l) = [] :: jsSplit sep l := by
  rw [jsSplit]
  rcases hc : jsSplit sep l with _ | ⟨w, ws⟩
  · exact absurd hc (jsSplit_ne_nil sep l)
  · simp

theorem jsSplit_cons_head (sep c : Char) (l w : List Char) (ws : List (List Char))
    (hc : (c == sep) = false) (hl : jsSplit sep l = w :: ws) :
    jsSplit sep (c :: l) = (c :: w) :: ws := by
  rw [jsSplit, hl]
  simp [hc]

theorem jsSplit_bearer (tok : String) (h : ' ' ∉ tok.data) :
    jsSplit ' ' ("Bearer " ++ tok).data = ["Bearer".data, tok.data] := by
  rw [String.data_append]
  show jsSplit ' ' ('B' :: 'e' :: 'a' :: 'r' :: 'e' :: 'r' :: ' ' :: tok.data) =
    [['B', 'e', 'a', 'r', 'e', 'r'], tok.data]
  have h0 : jsSplit ' ' (' ' :: tok.data) = [] :: [tok.data] := by
    rw [jsSplit_cons_sep, jsSplit_of_not_mem _ _ h]
  have h1 := jsSplit_cons_head ' ' 'r' _ _ _ (by decide) h0
  have h2 := jsSplit_cons_head ' ' 'e' _ _ _ (by decide) h1
  have h3 := jsSplit_cons_head ' ' 'r' _ _ _ (by decide) h2
  have h4 := jsSplit_cons_head ' ' 'a' _ _ _ (by decide) h3
  have h5 := jsSplit_cons_head ' ' 'e' _ _ _ (by decide) h4
  exact jsSplit_cons_head ' ' 'B' _ _ _ (by decide) h5

theorem authMiddleware_bearer (tokens : List String) (tok : String) (h : ' ' ∉ tok.data) :
    authMiddleware tokens (some ("Bearer " ++ tok)) =
      (if tokens.contains tok then AuthCheck.allowed else AuthCheck.forbidden) := by
  have hne : ¬ ("Bearer " ++ tok) = "" := by
    intro hc
    have := congrArg String.data hc
    rw [String.data_append] at this
    simp at this
  rw [authMiddleware, if_neg hne, startsWithBearer_append]
  rw [show (!true) = false from rfl, if_neg (by exact Bool.false_ne_true)]
  rw [jsSplit_bearer tok h]
  rfl

theorem assocLookup_setKey_self (m : List (String × Bool)) (k : String) (v : Bool) :
    assocLookup k (setKey m k v) = some v := by
  induction m with
  | nil => simp [setKey, assocLookup]
  | cons kv rest ih =>
    obtain ⟨k', v'⟩ := kv
    by_cases h : k' = k
    · subst h
      simp [setKey, assocLookup]
    · have h2 : ¬ k = k' := fun hc => h hc.symm
      simp [setKey, assocLookup, h, h2, ih]

theorem assocLookup_setKey_other (m : List (String × Bool)) (k : String) (v : Bool)
    (k0 : String) (h : k0 ≠ k) :
    assocLookup k0 (setKey m k v) = assocLookup k0 m := by
  induction m with
  | nil => simp [setKey, assocLookup, h]
  | cons kv rest ih =>
    obtain ⟨k', v'⟩ := kv
    by_cases hk : k' = k
    · subst hk
      simp [setKey, assocLookup, h, ih]
    · by_cases hk0 : k0 = k'
      · subst hk0
        simp [setKey, assocLookup, hk]
      · simp [setKey, assocLookup, hk, hk0, ih]

theorem assocLookup_objectAssign_notMem (patch tgt : List (String × Bool)) (k : String)
    (h : k ∉ patch.map Prod.fst) :
    assocLookup k (objectAssign tgt patch) = assocLookup k tgt := by
  induction patch generalizing tgt with
  | nil => rfl
  | cons kv rest ih =>
    rw [List.map_cons, List.mem_cons, not_or] at h
    rw [show objectAssign tgt (kv :: rest) = objectAssign (setKey tgt kv.1 kv.2) rest from rfl]
    rw [ih (setKey tgt kv.1 kv.2) h.2, assocLookup_setKey_other _ _ _ _ h.1]

theorem assocLookup_objectAssign_mem (patch tgt : List (String × Bool)) (k : String) (v : Bool)
    (hnd : (patch.map Prod.fst).Nodup) (hmem : (k, v) ∈ patch) :
    assocLookup k (objectAssign tgt patch) = some v := by
  induction patch generalizing tgt with
  | nil => cases hmem
  | cons kv rest ih =>
    rw [List.map_cons, List.nodup_cons] at hnd
    rw [show objectAssign tgt (kv :: rest) = objectAssign (setKey tgt kv.1 kv.2) rest from rfl]
    rcases List.mem_cons.mp hmem with heq | hmem'
    · subst heq
      have : k ∉ rest.map Prod.fst := hnd.1
      rw [assocLookup_objectAssign_notMem rest _ k this, assocLookup_setKey_self]
    · exact ih _ hnd.2 hmem'

theorem assocLookup_applyOverridePatch_self (m : List (String × List (String × Bool)))
    (d : String) (patch : List (String × Bool)) :
    assocLookup d (applyOverridePatch m d patch) =
      some (objectAssign ((assocLookup d m).getD []) patch) := by
  induction m with
  | nil => simp [applyOverridePatch, assocLookup]
  | cons kv rest ih =>
    obtain ⟨k, v⟩ := kv
    by_cases h : d = k
    · subst h
      simp [applyOverridePatch, assocLookup]
    · simp [applyOverridePatch, assocLookup, h, ih]

theorem assocLookup_applyOverridePatch_other (m : List (String × List (String × Bool)))
    (d : String) (patch : List (String × Bool)) (d' : String) (h : d' ≠ d) :
    assocLookup d' (applyOverridePatch m d patch) = assocLookup d' m := by
  induction m with
  | nil => simp [applyOverridePatch, assocLookup, h]
  | cons kv rest ih =>
    obtain ⟨k, v⟩ := kv
    by_cases hk : d = k
    · subst hk
      simp [applyOverridePatch, assocLookup, h, ih]
    · by_cases hk' : d' = k
      · subst hk'
        simp [applyOverridePatch, assocLookup, hk]
      · simp [applyOverridePatch, assocLookup, hk, hk', ih]

theorem getStandardAvailability_weekday (n : Nat) (h0 : n ≠ 0) (h6 : n ≠ 6) :
    getStandardAvailability (some n) = weekdaySlots := by
  unfold getStandardAvailability
  rcases n with _ | _ | _ | _ | _ | _ | _ | k
  · exact absurd rfl h0
  all_goals first | rfl | (exact absurd rfl h6)

/-- C5: the availability query answers 400 exactly when the `date` query
parameter is missing or fails the `^\d{4}-\d{2}-\d{2}$` pattern; a matching
date is never rejected for that reason. -/
theorem availability_badRequest_iff (st : ServerState) (dp : Option String) :
    getAvailability st dp = AvailabilityResponse.badRequest ↔
      (dp = none ∨ ∃ d, dp = some d ∧ matchesDateRegex d = false) := by
  cases dp with
  | none => simp [getAvailability]
  | some d =>
    by_cases h : matchesDateRegex d = true
    · simp [getAvailability, h]
    · have h' : matchesDateRegex d = false := by
        cases hh : matchesDateRegex d
        · rfl
        · exact absurd hh h
      simp [getAvailability, h']

/-- C6: on any well-formed date whose UTC day-of-week is Saturday (6) or
Sunday (0), the availability query answers 200 with an empty slot list,
whatever the bookings and overrides are. -/
theorem weekend_availability_empty (st : ServerState) (d : String) (y m dd : Nat)
    (hp : parseYMD d = some (y, m, dd)) (hr : isRealDate y m dd = true)
    (hw : jsUTCDay y m dd = 0 ∨ jsUTCDay y m dd = 6) :
    getAvailability st (some d) = AvailabilityResponse.ok d [] := by
  have hre : matchesDateRegex d = true := by rw [matchesDateRegex, hp]; rfl
  have hu : utcDayOpt d = some (jsUTCDay y m dd) := by rw [utcDayOpt, hp]; simp [hr]
  rcases hw with h0 | h6
  · simp [getAvailability, hre, hu, h0, getStandardAvailability]
  · simp [getAvailability, hre, hu, h6, getStandardAvailability]

theorem weekend_availability_empty_witness :
    getAvailability initialState (some "2025-10-11") =
      AvailabilityResponse.ok "2025-10-11" [] :=
  weekend_availability_empty initialState "2025-10-11" 2025 10 11 (by decide) (by decide)
    (Or.inr (by decide))

/-- C7: on any well-formed weekday date with no bookings and no overrides
recorded for it, the availability query answers exactly the fixed standard
slot list, in order; that list has no duplicates. -/
theorem weekday_availability_standard (st : ServerState) (d : String) (y m dd : Nat)
    (hp : parseYMD d = some (y, m, dd)) (hr : isRealDate y m dd = true)
    (hw0 : jsUTCDay y m dd ≠ 0) (hw6 : jsUTCDay y m dd ≠ 6)
    (hb : bookingsFor st d = []) (hov : overridesFor st d = []) :
    getAvailability st (some d) = AvailabilityResponse.ok d weekdaySlots ∧
      weekdaySlots.Nodup := by
  refine ⟨?_, by decide⟩
  have hre : matchesDateRegex d = true := by rw [matchesDateRegex, hp]; rfl
  have hu : utcDayOpt d = some (jsUTCDay y m dd) := by rw [utcDayOpt, hp]; simp [hr]
  simp [getAvailability, hre, hu, getStandardAvailability_weekday _ hw0 hw6, hb, hov]
  decide

theorem weekday_availability_standard_witness :
    getAvailability initialState (some "2025-10-13") =
      AvailabilityResponse.ok "2025-10-13" weekdaySlots ∧ weekdaySlots.Nodup :=
  weekday_availability_standard initialState "2025-10-13" 2025 10 13 (by decide) (by decide)
    (by decide) (by decide) rfl rfl

/-- C1: a slot `T` appears in the availability answer for date `D` iff it is
in the standard slot list for `D`'s UTC day-of-week, its override entry for
`D` is not `false`, and no booking record for `(D, T)` exists. -/
theorem availability_mem_iff (st : ServerState) (D T : String) (ts : List String)
    (hre : matchesDateRegex D = true)
    (hok : getAvailability st (some D) = AvailabilityResponse.ok D ts) :
    T ∈ ts ↔
      (T ∈ getStandardAvailability (utcDayOpt D) ∧
       assocLookup T (overridesFor st D) ≠ some false ∧
       T ∉ (bookingsFor st D).map BookingRecord.time) := by
  simp only [getAvailability, hre, if_true] at hok
  injection hok with hD hts
  subst hts
  simp [List.mem_filter, and_assoc]

theorem availability_mem_iff_witness :
    ("08:00 AM - 09:00 AM" ∈ weekdaySlots ↔
      ("08:00 AM - 09:00 AM" ∈ getStandardAvailability (utcDayOpt "2025-10-13") ∧
       assocLookup "08:00 AM - 09:00 AM" (overridesFor initialState "2025-10-13") ≠
         some false ∧
       "08:00 AM - 09:00 AM" ∉
         (bookingsFor initialState "2025-10-13").map BookingRecord.time)) :=
  availability_mem_iff initialState "2025-10-13" "08:00 AM - 09:00 AM" weekdaySlots
    (by decide) (by decide)

/-- C8: a booking request missing (or presenting as empty) any of date, time,
name, email or address is rejected with 400 and the state — in particular
the booking store — is left unchanged, whatever the conflict state is. -/
theorem book_missing_required (st : ServerState) (r : BookRequest)
    (h : requiredPresent r = false) :
    createBooking st r = (BookResponse.badRequest, st) := by
  simp [createBooking, h]

theorem book_missing_required_witness :
    createBooking initialState
      ⟨some "2025-10-13", some "08:00 AM - 09:00 AM", none, some "a@x.com",
        some "1 Main St", none⟩ = (BookResponse.badRequest, initialState) :=
  book_missing_required initialState _ (by decide)

theorem createBooking_conflict_eq (st : ServerState) (r : BookRequest) (d t : String)
    (hd : r.date = some d) (ht : r.time = some t) (hall : requiredPresent r = true)
    (hcond : ((bookingsFor st d).any (fun b => b.time == t) ||
      (assocLookup t (overridesFor st d) == some false)) = true) :
    createBooking st r = (BookResponse.conflict, st) := by
  rw [createBooking]
  simp only [hall, if_true, hd, ht, Option.getD_some]
  rw [hcond]
  simp

theorem createBooking_success_eq (st : ServerState) (r : BookRequest) (d t : String)
    (hd : r.date = some d) (ht : r.time = some t) (hall : requiredPresent r = true)
    (hcond : ((bookingsFor st d).any (fun b => b.time == t) ||
      (assocLookup t (overridesFor st d) == some false)) = false) :
    createBooking st r =
      (BookResponse.created,
       { st with bookings := pushBooking st.bookings d (mkRecord r) }) := by
  rw [createBooking]
  simp only [hall, if_true, hd, ht, Option.getD_some]
  rw [hcond]
  simp

theorem bookingsFor_pushBooking_self (st : ServerState) (d : String) (b : BookingRecord) :
    bookingsFor { st with bookings := pushBooking st.bookings d b } d =
      bookingsFor st d ++ [b] := by
  simp [bookingsFor, assocLookup_pushBooking_self]

theorem bookingsFor_pushBooking_other (st : ServerState) (d d' : String) (b : BookingRecord)
    (h : d' ≠ d) :
    bookingsFor { st with bookings := pushBooking st.bookings d b } d' =
      bookingsFor st d' := by
  simp [bookingsFor, assocLookup_pushBooking_other _ _ _ _ h]

theorem availability_excludes_booked (st : ServerState) (d t : String)
    (hbooked : t ∈ (bookingsFor st d).map BookingRecord.time) :
    ∀ dd ts, getAvailability st (some d) = AvailabilityResponse.ok dd ts → t ∉ ts := by
  intro dd ts hok hmem
  cases hre : matchesDateRegex d with
  | false => simp [getAvailability, hre] at hok
  | true =>
    simp only [getAvailability, hre, if_true] at hok
    injection hok with h1 h2
    subst h2
    rw [List.mem_filter] at hmem
    have h3 := hmem.2
    simp only [Bool.and_eq_true, Bool.not_eq_true'] at h3
    have h4 := h3.2
    simp at h4
    rw [List.mem_map] at hbooked
    obtain ⟨b, hb, hbt⟩ := hbooked
    exact h4 b hb hbt

/-- C2: with all required fields present, `POST /api/book` answers 409 and
leaves the state unchanged when `(date, time)` is already booked or
overridden to `false`; otherwise it answers 201 and appends exactly one
record for `(date, time)`, touching no other date; after such a success,
repeating the same request answers 409, and the availability listing for
the date excludes the slot. -/
theorem createBooking_conflict_law (st : ServerState) (r : BookRequest) (d t : String)
    (hd : r.date = some d) (ht : r.time = some t) (hall : requiredPresent r = true) :
    (((bookingsFor st d).any (fun b => b.time == t) ||
        (assocLookup t (overridesFor st d) == some false)) = true →
      createBooking st r = (BookResponse.conflict, st)) ∧
    (((bookingsFor st d).any (fun b => b.time == t) ||
        (assocLookup t (overridesFor st d) == some false)) = false →
      (createBooking st r).1 = BookResponse.created ∧
      bookingsFor (createBooking st r).2 d = bookingsFor st d ++ [mkRecord r] ∧
      (mkRecord r).time = t ∧
      (∀ d', d' ≠ d → bookingsFor (createBooking st r).2 d' = bookingsFor st d') ∧
      (createBooking (createBooking st r).2 r).1 = BookResponse.conflict ∧
      (∀ dd ts, getAvailability (createBooking st r).2 (some d) =
          AvailabilityResponse.ok dd ts → t ∉ ts)) := by
  constructor
  · intro hcond
    exact createBooking_conflict_eq st r d t hd ht hall hcond
  · intro hcond
    have hmk : (mkRecord r).time = t := by simp [mkRecord, ht]
    have hsucc := createBooking_success_eq st r d t hd ht hall hcond
    rw [hsucc]
    have hself := bookingsFor_pushBooking_self st d (mkRecord r)
    refine ⟨rfl, hself, hmk, ?_, ?_, ?_⟩
    · intro d' hd'
      exact bookingsFor_pushBooking_other st d d' (mkRecord r) hd'
    · have hb2 : t ∈ ((bookingsFor
          { st with bookings := pushBooking st.bookings d (mkRecord r) } d).map
            BookingRecord.time) := by
        rw [hself]
        simp [hmk]
      have hany : ((bookingsFor
          { st with bookings := pushBooking st.bookings d (mkRecord r) } d).any
            (fun b => b.time == t) ||
          (assocLookup t (overridesFor
            { st with bookings := pushBooking st.bookings d (mkRecord r) } d) ==
              some false)) = true := by
        have ha : (bookingsFor
            { st with bookings := pushBooking st.bookings d (mkRecord r) } d).any
              (fun b => b.time == t) = true := by
          rw [hself]
          simp [hmk]
        simp [ha]
      rw [createBooking_conflict_eq _ r d t hd ht hall hany]
    · apply availability_excludes_booked
      rw [hself]
      simp [hmk]

theorem createBooking_conflict_law_witness :
    (createBooking (createBooking initialState sampleRequest).2 sampleRequest).1 =
      BookResponse.conflict :=
  ((createBooking_conflict_law initialState sampleRequest "2025-10-13"
      "09:00 AM - 10:00 AM" rfl rfl (by decide)).2 (by decide)).2.2.2.2.1

/-- C10: the booking handler never consults the standard slot list: for any
date (weekend included) and any time string, a request with all required
fields present succeeds with 201 whenever `(date, time)` is not already
booked and not overridden to `false`, and the record is stored, even when
the time is outside the standard list and therefore can never appear in any
availability listing for that date, whatever the state. -/
theorem createBooking_ignores_standard (st : ServerState) (r : BookRequest) (d t : String)
    (hd : r.date = some d) (ht : r.time = some t) (hall : requiredPresent r = true)
    (hcond : ((bookingsFor st d).any (fun b => b.time == t) ||
      (assocLookup t (overridesFor st d) == some false)) = false) :
    (createBooking st r).1 = BookResponse.created ∧
    mkRecord r ∈ bookingsFor (createBooking st r).2 d ∧
    (t ∉ getStandardAvailability (utcDayOpt d) →
      ∀ st2 dd ts, getAvailability st2 (some d) = AvailabilityResponse.ok dd ts →
        t ∉ ts) := by
  have hsucc := createBooking_success_eq st r d t hd ht hall hcond
  rw [hsucc]
  refine ⟨rfl, ?_, ?_⟩
  · rw [bookingsFor_pushBooking_self]
    simp
  · intro hns st2 dd ts hok hmem
    cases hre : matchesDateRegex d with
    | false => simp [getAvailability, hre] at hok
    | true =>
      simp only [getAvailability, hre, if_true] at hok
      injection hok with h1 h2
      subst h2
      exact hns (List.mem_filter.mp hmem).1

theorem createBooking_ignores_standard_witness :
    (createBooking initialState saturdayRequest).1 = BookResponse.created :=
  (createBooking_ignores_standard initialState saturdayRequest "2025-10-11" "25:99"
    rfl rfl (by decide) (by decide)).1

/-- C9: a successful `POST /api/admin/availability` for (date, patch) answers
200, leaves the booking store and the token registry unchanged, leaves the
override entries of every other date unchanged, and within the given date
overwrites exactly the slot keys of the patch, leaving all other slots'
entries unchanged. -/
theorem setOverrides_frame (st : ServerState) (h : Option String) (d : String)
    (patch : List (String × Bool))
    (hauth : authMiddleware st.validTokens h = AuthCheck.allowed)
    (hd : ¬ d = "") (hnd : (patch.map Prod.fst).Nodup) :
    (adminPostAvailability st h (some d) (some patch)).1 = AdminResult.ok () ∧
    ((adminPostAvailability st h (some d) (some patch)).2).bookings = st.bookings ∧
    ((adminPostAvailability st h (some d) (some patch)).2).validTokens = st.validTokens ∧
    (∀ d', d' ≠ d →
      assocLookup d'
          ((adminPostAvailability st h (some d) (some patch)).2).availabilityOverrides =
        assocLookup d' st.availabilityOverrides) ∧
    (∀ s v, (s, v) ∈ patch →
      assocLookup s (overridesFor (adminPostAvailability st h (some d) (some patch)).2 d) =
        some v) ∧
    (∀ s, s ∉ patch.map Prod.fst →
      assocLookup s (overridesFor (adminPostAvailability st h (some d) (some patch)).2 d) =
        assocLookup s (overridesFor st d)) := by
  have heq : adminPostAvailability st h (some d) (some patch) =
      (AdminResult.ok (),
       { st with availabilityOverrides :=
           applyOverridePatch st.availabilityOverrides d patch }) := by
    rw [adminPostAvailability, checkAuth, hauth]
    simp [setOverridesRoute, hd]
  rw [heq]
  have hov : overridesFor
      { st with availabilityOverrides :=
          applyOverridePatch st.availabilityOverrides d patch } d =
      objectAssign (overridesFor st d) patch := by
    rw [overridesFor]
    show (assocLookup d (applyOverridePatch st.availabilityOverrides d patch)).getD [] = _
    rw [assocLookup_applyOverridePatch_self]
    rfl
  refine ⟨rfl, rfl, rfl, ?_, ?_, ?_⟩
  · intro d' hd'
    exact assocLookup_applyOverridePatch_other _ _ _ _ hd'
  · intro s v hmem
    rw [hov]
    exact assocLookup_objectAssign_mem patch _ s v hnd hmem
  · intro s hs
    rw [hov]
    exact assocLookup_objectAssign_notMem patch _ s hs

theorem setOverrides_frame_witness :
    (adminPostAvailability ⟨[], [], ["tok123"]⟩ (some "Bearer tok123")
      (some "2025-10-13") (some [("09:00 AM - 10:00 AM", false)])).1 =
      AdminResult.ok () :=
  (setOverrides_frame ⟨[], [], ["tok123"]⟩ (some "Bearer tok123") "2025-10-13"
    [("09:00 AM - 10:00 AM", false)] (by decide) (by decide) (by decide)).1

theorem adminPostAvailability_allowed_ne (st : ServerState) (h : Option String)
    (hauth : authMiddleware st.validTokens h = AuthCheck.allowed)
    (d : Option String) (slots : Option (List (String × Bool))) :
    (adminPostAvailability st h d slots).1 ≠ AdminResult.unauthorized ∧
    (adminPostAvailability st h d slots).1 ≠ AdminResult.forbidden := by
  rw [adminPostAvailability, checkAuth, hauth]
  rcases d with _ | d' <;> rcases slots with _ | patch
  · simp [setOverridesRoute]
  · simp [setOverridesRoute]
  · simp [setOverridesRoute]
  · by_cases hd : d' = "" <;> simp [setOverridesRoute, hd]

/-- C4: on each protected admin route, a request with no `Authorization`
header is answered 401; a request presenting a bearer token outside the
valid-token set is answered 403; and a login with the correct passcode puts
the fresh token into the valid set, after which presenting it as a bearer
token passes the gate on all those routes. -/
theorem adminAuth_law (st : ServerState) (tok f pc : String)
    (htok : ' ' ∉ tok.data) (hf : ' ' ∉ f.data)
    (d : Option String) (slots : Option (List (String × Bool))) :
    (adminGetBookings st none = (AdminResult.unauthorized, st) ∧
     adminGetAvailability st none = (AdminResult.unauthorized, st) ∧
     adminPostAvailability st none d slots = (AdminResult.unauthorized, st)) ∧
    (tok ∉ st.validTokens →
      adminGetBookings st (some ("Bearer " ++ tok)) = (AdminResult.forbidden, st) ∧
      adminGetAvailability st (some ("Bearer " ++ tok)) = (AdminResult.forbidden, st) ∧
      adminPostAvailability st (some ("Bearer " ++ tok)) d slots =
        (AdminResult.forbidden, st)) ∧
    ((login pc st (some pc) f).1 = LoginResponse.success f ∧
     f ∈ ((login pc st (some pc) f).2).validTokens ∧
     (∀ st2 : ServerState, f ∈ st2.validTokens →
        (adminGetBookings st2 (some ("Bearer " ++ f))).1 = AdminResult.ok st2.bookings ∧
        (adminGetAvailability st2 (some ("Bearer " ++ f))).1 =
          AdminResult.ok st2.availabilityOverrides ∧
        (adminPostAvailability st2 (some ("Bearer " ++ f)) d slots).1 ≠
          AdminResult.unauthorized ∧
        (adminPostAvailability st2 (some ("Bearer " ++ f)) d slots).1 ≠
          AdminResult.forbidden)) := by
  refine ⟨⟨rfl, rfl, rfl⟩, ?_, ?_, ?_, ?_⟩
  · intro hnot
    have hcon : st.validTokens.contains tok = false := by
      simp
      exact hnot
    have hmid : authMiddleware st.validTokens (some ("Bearer " ++ tok)) =
        AuthCheck.forbidden := by
      rw [authMiddleware_bearer st.validTokens tok htok, hcon]
      simp
    refine ⟨?_, ?_, ?_⟩
    · rw [adminGetBookings, checkAuth, hmid]
    · rw [adminGetAvailability, checkAuth, hmid]
    · rw [adminPostAvailability, checkAuth, hmid]
  · simp [login]
  · simp [login]
  · intro st2 hmem
    have hcon : st2.validTokens.contains f = true := by
      simp
      exact hmem
    have hmid : authMiddleware st2.validTokens (some ("Bearer " ++ f)) =
        AuthCheck.allowed := by
      rw [authMiddleware_bearer st2.validTokens f hf, hcon]
      simp
    refine ⟨?_, ?_, ?_⟩
    · rw [adminGetBookings, checkAuth, hmid]
      rfl
    · rw [adminGetAvailability, checkAuth, hmid]
      rfl
    · exact adminPostAvailability_allowed_ne st2 _ hmid d slots

theorem adminAuth_law_witness :
    adminGetBookings initialState none = (AdminResult.unauthorized, initialState) :=
  (adminAuth_law initialState "forged" "freshtok" "secret123" (by decide) (by decide)
    (some "2025-10-13") (some [])).1.1

theorem checkAuth_snd_cases {α : Type} (st : ServerState) (h : Option String)
    (route : ServerState → AdminResult α × ServerState) :
    (checkAuth st h route).2 = st ∨ checkAuth st h route = route st := by
  rw [checkAuth]
  cases authMiddleware st.validTokens h <;> simp

theorem adminGetBookings_snd (st : ServerState) (h : Option String) :
    (adminGetBookings st h).2 = st := by
  rw [adminGetBookings]
  rcases checkAuth_snd_cases st h bookingsRoute with he | he
  · exact he
  · rw [he]; rfl

theorem adminGetAvailability_snd (st : ServerState) (h : Option String) :
    (adminGetAvailability st h).2 = st := by
  rw [adminGetAvailability]
  rcases checkAuth_snd_cases st h overridesRoute with he | he
  · exact he
  · rw [he]; rfl

theorem adminPostAvailability_bookings (st : ServerState) (h : Option String)
    (d : Option String) (s : Option (List (String × Bool))) :
    ((adminPostAvailability st h d s).2).bookings = st.bookings := by
  rw [adminPostAvailability]
  rcases checkAuth_snd_cases st h (setOverridesRoute d s) with he | he
  · rw [he]
  · rw [he]
    rcases d with _ | d' <;> rcases s with _ | patch
    · rfl
    · rfl
    · rfl
    · by_cases hd : d' = "" <;> simp [setOverridesRoute, hd]

theorem login_snd_bookings (pc : String) (st : ServerState) (body : Option String)
    (f : String) : ((login pc st body f).2).bookings = st.bookings := by
  rw [login]
  split <;> rfl

theorem createBooking_state_cases (st : ServerState) (r : BookRequest) :
    (createBooking st r).2 = st ∨
    ∃ d t, r.date = some d ∧ r.time = some t ∧
      (bookingsFor st d).any (fun b => b.time == t) = false ∧
      (createBooking st r).2 =
        { st with bookings := pushBooking st.bookings d (mkRecord r) } := by
  by_cases hall : requiredPresent r = true
  · rcases hdate : r.date with _ | d0
    · left
      rw [requiredPresent, hdate] at hall
      simp [present] at hall
    · rcases htime : r.time with _ | t0
      · left
        rw [requiredPresent, htime] at hall
        simp [present] at hall
      · by_cases hcond : ((bookingsFor st d0).any (fun b => b.time == t0) ||
            (assocLookup t0 (overridesFor st d0) == some false)) = true
        · left
          rw [createBooking_conflict_eq st r d0 t0 hdate htime hall hcond]
        · have hcond' : ((bookingsFor st d0).any (fun b => b.time == t0) ||
              (assocLookup t0 (overridesFor st d0) == some false)) = false := by
            cases hx : ((bookingsFor st d0).any (fun b => b.time == t0) ||
              (assocLookup t0 (overridesFor st d0) == some false))
            · rfl
            · exact absurd hx hcond
          right
          refine ⟨d0, t0, rfl, rfl, (Bool.or_eq_false_iff.mp hcond').1, ?_⟩
          rw [createBooking_success_eq st r d0 t0 hdate htime hall hcond']
  · left
    have hall' : requiredPresent r = false := by
      cases hx : requiredPresent r
      · rfl
      · exact absurd hx hall
    simp [createBooking, hall']

theorem nodup_times_createBooking (st : ServerState) (r : BookRequest)
    (ih : ∀ d, ((bookingsFor st d).map BookingRecord.time).Nodup) :
    ∀ d, ((bookingsFor (createBooking st r).2 d).map BookingRecord.time).Nodup := by
  intro d
  rcases createBooking_state_cases st r with heq | ⟨d0, t0, hdate, htime, hany, heq⟩
  · rw [heq]; exact ih d
  · by_cases hd : d = d0
    · subst hd
      rw [heq, bookingsFor_pushBooking_self]
      have ht0 : (mkRecord r).time = t0 := by simp [mkRecord, htime]
      have hnotin : t0 ∉ (bookingsFor st d).map BookingRecord.time := by
        intro hmem
        rw [List.mem_map] at hmem
        obtain ⟨b, hb, hbt⟩ := hmem
        have hx : (bookingsFor st d).any (fun b => b.time == t0) = true :=
          List.any_eq_true.mpr ⟨b, hb, by simp [hbt]⟩
        rw [hany] at hx
        cases hx
      rw [List.map_append]
      simp only [List.map_cons, List.map_nil, ht0]
      rw [List.nodup_append]
      refine ⟨ih d, List.nodup_singleton t0, ?_⟩
      intro x hx1 hx2
      rw [List.mem_singleton] at hx2
      subst hx2
      exact hnotin hx1
    · rw [heq, bookingsFor_pushBooking_other st d0 d _ fun hc => hd hc]
      exact ih d

theorem bookingsFor_eq_of_bookings_eq (st st' : ServerState)
    (h : st'.bookings = st.bookings) (d : String) :
    bookingsFor st' d = bookingsFor st d := by
  rw [bookingsFor, bookingsFor, h]

/-- C3: in every reachable state, at most one booking record exists per
(date, slot) — the slot labels of a date's booking list are pairwise
distinct — and this is preserved by every operation (the availability query
reads the state without changing it; the mutating and read-only routes are
the steps of `Reachable`). -/
theorem booking_per_slot_unique (st : ServerState) (hr : Reachable st) :
    ∀ d, ((bookingsFor st d).map BookingRecord.time).Nodup := by
  induction hr with
  | init => intro d; simp [initialState, bookingsFor, assocLookup]
  | book st0 r hr0 ih => exact nodup_times_createBooking st0 r ih
  | patchOverrides st0 h d0 slots hr0 ih =>
    intro d
    rw [bookingsFor_eq_of_bookings_eq _ _ (adminPostAvailability_bookings st0 h d0 slots) d]
    exact ih d
  | issueToken pc st0 body f hr0 ih =>
    intro d
    rw [bookingsFor_eq_of_bookings_eq _ _ (login_snd_bookings pc st0 body f) d]
    exact ih d
  | listBookings st0 h hr0 ih =>
    intro d
    rw [adminGetBookings_snd st0 h]
    exact ih d
  | listOverrides st0 h hr0 ih =>
    intro d
    rw [adminGetAvailability_snd st0 h]
    exact ih d

theorem booking_per_slot_unique_witness :
    ((bookingsFor (createBooking initialState sampleRequest).2 "2025-10-13").map
      BookingRecord.time).Nodup :=
  booking_per_slot_unique _ (Reachable.book initialState sampleRequest Reachable.init)
    "2025-10-13"
